import Mathlib

set_option maxRecDepth 40000

/-!
Verification of the device-protocol framing core (`device-protocol-c`):
CRC-16-CCITT engine, frame builder, byte-streamed frame parser state
machine, metric record codec and message constructors.

Modelling conventions:
* machine integers are `Nat`; truncation is explicit (`% 256`, `% 65536`,
  `&&& 0xFF`) exactly where the C code narrows a value;
* the parser's fixed `uint8_t buffer[4104]` together with `buffer_pos` is
  modelled as the list of bytes written so far (`buffer_pos` is its
  length); stale bytes beyond `buffer_pos` are never read by the code, so
  the list model is observationally exact;
* caller-supplied output buffers are lists of bytes written in place with
  `List.set`, so "no partial write on failure" is a real statement;
* `float` values never undergo arithmetic in the source (only bit-pattern
  reinterpretation between a 32-bit big-endian integer and `float`), so a
  metric value is modelled as its 32-bit pattern;
* the statistics counters (`uint32_t`) hold naturals and every increment
  wraps explicitly at `2^32` (`(c + 1) % 4294967296`), as the C `++` on a
  `uint32_t` does.
-/

namespace Devproto

/-- Modelled from the spec: the CRC-16-CCITT bit-serial step. The file
`crc16.c` implementing `devproto_crc16` / `devproto_crc16_update` is not
part of the sources (only its header `crc16.h`, tests and callers are);
the algorithm follows the spec's words: polynomial `0x1021`, initial
value `0xFFFF`, input bits processed MSB-first per byte, no reflection,
no final XOR. This is one shift-and-conditionally-xor step on a 16-bit
register. -/
def crcStep (crc : Nat) : Nat :=
  if crc &&& 0x8000 ≠ 0 then ((crc <<< 1) ^^^ 0x1021) % 65536
  else (crc <<< 1) % 65536

/-- Modelled from the spec: absorb one input byte into the CRC register
(xor into the high byte, then eight bit-serial steps). -/
def devproto_crc16_update_byte (crc b : Nat) : Nat :=
  crcStep^[8] ((crc ^^^ ((b % 256) <<< 8)) % 65536)

/-- Modelled from the spec: `crc16_update(crc, bytes)` continues an
in-progress CRC computation over the given bytes. -/
def devproto_crc16_update (crc : Nat) (data : List Nat) : Nat :=
  data.foldl devproto_crc16_update_byte crc

/-- Modelled from the spec: `crc16(bytes)` is the CRC-16-CCITT of the
input, i.e. an update starting from the initial value `0xFFFF`. -/
def devproto_crc16 (data : List Nat) : Nat :=
  devproto_crc16_update 0xFFFF data

theorem crcStep_lt (crc : Nat) : crcStep crc < 65536 := by
  unfold crcStep
  split <;> exact Nat.mod_lt _ (by norm_num)

theorem devproto_crc16_update_byte_lt (crc b : Nat) :
    devproto_crc16_update_byte crc b < 65536 := by
  unfold devproto_crc16_update_byte
  rw [show (8 : Nat) = 7 + 1 from rfl, Function.iterate_succ_apply']
  exact crcStep_lt _

theorem devproto_crc16_lt (data : List Nat) : devproto_crc16 data < 65536 := by
  unfold devproto_crc16 devproto_crc16_update
  induction data using List.reverseRecOn with
  | nil => norm_num
  | append_singleton xs x _ =>
      rw [List.foldl_append]
      exact devproto_crc16_update_byte_lt _ _

/-- Big-endian byte recombination: shifting the high byte of a 16-bit
value back up and or-ing the low byte restores the value. This is the
algebra behind the parser reassembling `LENGTH` and `CRC` fields from
the two wire bytes produced by the builder. -/
theorem be16_recombine (v : Nat) (hv : v < 65536) :
    (((v >>> 8) &&& 255) <<< 8) ||| (v &&& 255) = v := by
  have hand : ∀ x : Nat, x &&& 255 = x % 256 := fun x => by
    simpa using Nat.and_pow_two_sub_one_eq_mod x 8
  have hb : v % 256 < 2 ^ 8 := by
    have h := Nat.mod_lt v (show 0 < 256 by norm_num)
    omega
  rw [hand, hand, Nat.shiftRight_eq_div_pow, Nat.shiftLeft_eq,
    Nat.mul_comm, ← Nat.mul_add_lt_is_or hb]
  have h28 : (2 : Nat) ^ 8 = 256 := by norm_num
  rw [h28]
  omega

/-- Or-ing a low byte into a value with eight trailing zero bits is
addition. -/
theorem shiftLeft8_or (a b : Nat) (hb : b < 256) :
    (a <<< 8) ||| b = a * 256 + b := by
  have hb2 : b < 2 ^ 8 := by
    have h28 : (2 : Nat) ^ 8 = 256 := by norm_num
    omega
  calc (a <<< 8) ||| b = 2 ^ 8 * a ||| b := by rw [Nat.shiftLeft_eq, Nat.mul_comm]
    _ = 2 ^ 8 * a + b := (Nat.mul_add_lt_is_or hb2 a).symm
    _ = a * 256 + b := by rw [Nat.mul_comm]

/-- Parser state machine states (`devproto_frame_state_t`). -/
inductive FrameState where
| IDLE
| HEADER_LO
| LENGTH_HI
| LENGTH_LO
| TYPE
| SEQUENCE
| PAYLOAD
| CRC_HI
| CRC_LO
| COMPLETE
| ERROR
deriving DecidableEq

/-- Frame parser context (`devproto_frame_parser_t`). The fixed
`buffer[4104]` plus `buffer_pos` pair is modelled as the list of bytes
written so far; its length is `buffer_pos`. -/
structure Parser where
  state : FrameState
  buffer : List Nat
  expected_length : Nat
  payload_received : Nat
  msg_type : Nat
  sequence : Nat
  crc_received : Nat
  frames_parsed : Nat
  crc_errors : Nat
  sync_errors : Nat
deriving DecidableEq

/-- A surfaced message view (`devproto_message_t` as filled in by
`devproto_frame_get_message`): kind, sequence and the payload bytes the
view designates. -/
structure Message where
  msg_type : Nat
  sequence : Nat
  payload : List Nat
deriving DecidableEq

/-- The C message struct as handed to the builder and the constructors:
`payload_len` is a separate 16-bit field and `payload` is a possibly-null
pointer, modelled as `Option` of the pointed-to bytes. -/
structure MessageC where
  msg_type : Nat
  sequence : Nat
  payload_len : Nat
  payload : Option (List Nat)
deriving DecidableEq

/-- `devproto_frame_parser_init`: zero everything, state `IDLE`. -/
def devproto_frame_parser_init : Parser :=
  ⟨.IDLE, [], 0, 0, 0, 0, 0, 0, 0, 0⟩

/-- `devproto_frame_parser_reset`: back to `IDLE`, discard the
in-progress frame, leave the three counters untouched. -/
def devproto_frame_parser_reset (p : Parser) : Parser :=
  { p with
    state := .IDLE
    buffer := []
    expected_length := 0
    payload_received := 0
    msg_type := 0
    sequence := 0
    crc_received := 0 }

/-- `devproto_frame_parse_byte`: process a single byte through the state
machine. The C parameter is `uint8_t`, hence the truncation of the
argument on entry. Returns the updated parser and the C return code:
`1` frame complete, `0` need more data, `-1` CRC error, `-2` overflow. -/
def devproto_frame_parse_byte (p : Parser) (b : Nat) : Parser × Int :=
  let byte := b % 256
  match p.state with
  | .IDLE =>
      if byte = 0xAA then
        ({ p with buffer := [byte], state := .HEADER_LO }, 0)
      else (p, 0)
  | .HEADER_LO =>
      if byte = 0x55 then
        ({ p with buffer := p.buffer ++ [byte], state := .LENGTH_HI }, 0)
      else if byte = 0xAA then
        ({ p with buffer := [byte] }, 0)
      else
        (devproto_frame_parser_reset
          { p with sync_errors := (p.sync_errors + 1) % 4294967296 }, 0)
  | .LENGTH_HI =>
      ({ p with buffer := p.buffer ++ [byte], expected_length := byte <<< 8, state := .LENGTH_LO }, 0)
  | .LENGTH_LO =>
      let len := p.expected_length ||| byte
      let p1 := { p with buffer := p.buffer ++ [byte], expected_length := len }
      if len > 4096 then
        (devproto_frame_parser_reset
          { p1 with sync_errors := (p1.sync_errors + 1) % 4294967296 }, -2)
      else
        ({ p1 with state := .TYPE }, 0)
  | .TYPE =>
      ({ p with buffer := p.buffer ++ [byte], msg_type := byte, state := .SEQUENCE }, 0)
  | .SEQUENCE =>
      let p1 := { p with buffer := p.buffer ++ [byte], sequence := byte, payload_received := 0 }
      if p.expected_length = 0 then
        ({ p1 with state := .CRC_HI }, 0)
      else
        ({ p1 with state := .PAYLOAD }, 0)
  | .PAYLOAD =>
      if p.buffer.length < 4104 then
        let p1 := { p with buffer := p.buffer ++ [byte], payload_received := p.payload_received + 1 }
        if p1.payload_received ≥ p1.expected_length then
          ({ p1 with state := .CRC_HI }, 0)
        else (p1, 0)
      else
        (devproto_frame_parser_reset
          { p with sync_errors := (p.sync_errors + 1) % 4294967296 }, -2)
  | .CRC_HI =>
      ({ p with crc_received := byte <<< 8, state := .CRC_LO }, 0)
  | .CRC_LO =>
      let crc_rx := p.crc_received ||| byte
      let data_len := 6 + p.expected_length
      let crc_calc := devproto_crc16 (p.buffer.take data_len)
      if crc_calc = crc_rx then
        ({ p with crc_received := crc_rx, state := .COMPLETE, frames_parsed := (p.frames_parsed + 1) % 4294967296 }, 1)
      else
        (devproto_frame_parser_reset { p with crc_received := crc_rx, crc_errors := (p.crc_errors + 1) % 4294967296, state := .ERROR }, -1)
  | .COMPLETE | .ERROR =>
      let p0 := devproto_frame_parser_reset p
      if byte = 0xAA then
        ({ p0 with buffer := [byte], state := .HEADER_LO }, 0)
      else (p0, 0)

/-- `devproto_frame_get_message`: after `parse_byte` returned `1`, the
surfaced message is the stored type and sequence plus the payload view
at buffer offset 6 of length `expected_length`; in any other state the
call fails (`none`). -/
def devproto_frame_get_message (p : Parser) : Option Message :=
  if p.state = .COMPLETE then
    some ⟨p.msg_type, p.sequence, (p.buffer.drop 6).take p.expected_length⟩
  else none

/-- Feed a list of bytes one at a time, collecting each call's parser and
return code trace. -/
def feedTrace (p : Parser) (data : List Nat) : Parser × List Int :=
  match data with
  | [] => (p, [])
  | b :: rest =>
      let pr := devproto_frame_parse_byte p b
      let qr := feedTrace pr.1 rest
      (qr.1, pr.2 :: qr.2)

/-- The parser after feeding a list of bytes one at a time. -/
def feed (p : Parser) (data : List Nat) : Parser :=
  data.foldl (fun q b => (devproto_frame_parse_byte q b).1) p

/-- One iteration of the `devproto_frame_parse` loop body: while fewer
than `maxm` messages have been collected, feed the byte; on completion
surface the message and reset the parser. Once `maxm` messages are
collected the C loop has exited, so remaining bytes leave the
accumulator untouched. -/
def frameParseStep (maxm : Nat) (acc : Parser × List Message) (b : Nat) :
    Parser × List Message :=
  if acc.2.length < maxm then
    let pr := devproto_frame_parse_byte acc.1 b
    if pr.2 = 1 then
      match devproto_frame_get_message pr.1 with
      | some m => (devproto_frame_parser_reset pr.1, acc.2 ++ [m])
      | none => (devproto_frame_parser_reset pr.1, acc.2)
    else (pr.1, acc.2)
  else acc

/-- `devproto_frame_parse`: bulk parse. `none` models the `-3` invalid
argument error for `max_messages == 0`; otherwise the clamped message
limit is applied and the bytes are processed in order. -/
def devproto_frame_parse (p : Parser) (data : List Nat) (max_messages : Nat) :
    Option (Parser × List Message) :=
  if max_messages = 0 then none
  else some (data.foldl (frameParseStep (min max_messages 2147483647)) (p, []))

/-- Sequential stores of `xs` into `buf` starting at index `i`
(`buffer[i++] = x` / `memcpy`). -/
def writeAt (buf : List Nat) (i : Nat) : List Nat → List Nat
  | [] => buf
  | x :: xs => writeAt (buf.set i x) (i + 1) xs

/-- `devproto_frame_build`: serialise a message into the caller's buffer.
On any validation failure the buffer is returned untouched with code
`-1`; on success the header, payload copy and CRC are written in place
and the frame length is returned. -/
def devproto_frame_build (msg : MessageC) (buffer : List Nat) : List Nat × Int :=
  if msg.payload_len > 4096 then (buffer, -1)
  else
    let frame_len := 6 + msg.payload_len + 2
    if buffer.length < frame_len then (buffer, -1)
    else if frame_len > 2147483647 then (buffer, -1)
    else
      let b1 := writeAt buffer 0
        [0xAA, 0x55, (msg.payload_len >>> 8) &&& 0xFF, msg.payload_len &&& 0xFF,
          msg.msg_type, msg.sequence]
      let b2 :=
        if msg.payload_len > 0 then
          match msg.payload with
          | some pl => writeAt b1 6 (pl.take msg.payload_len)
          | none => b1
        else b1
      let data_len := 6 + msg.payload_len
      let crc := devproto_crc16 (b2.take data_len)
      let b3 := writeAt b2 data_len [(crc >>> 8) &&& 0xFF, crc &&& 0xFF]
      (b3, (frame_len : Int))

/-- The wire bytes of a frame for kind `ty`, sequence `sq` and the given
payload: sync pair, big-endian length, type, sequence, payload, then
big-endian CRC over the first `6 + L` bytes. -/
def frame_bytes (ty sq : Nat) (payload : List Nat) : List Nat :=
  let hdr := [0xAA, 0x55, (payload.length >>> 8) &&& 0xFF, payload.length &&& 0xFF, ty, sq]
  let crc := devproto_crc16 (hdr ++ payload)
  hdr ++ payload ++ [(crc >>> 8) &&& 0xFF, crc &&& 0xFF]

/-- A decoded metric (`devproto_metric_t`): type code and the 32-bit
pattern of the IEEE-754 single-precision value. `devproto_float_from_be`
only reinterprets the assembled big-endian 32-bit integer as a `float`
(union type punning), so the bit pattern is the faithful model of the
value. -/
structure Metric where
  type : Nat
  value_bits : Nat
deriving DecidableEq

/-- `devproto_float_from_be`: assemble a 32-bit big-endian value from
four wire bytes (the `float` reinterpretation preserves these bits). -/
def devproto_float_from_be (b0 b1 b2 b3 : Nat) : Nat :=
  (b0 <<< 24) ||| (b1 <<< 16) ||| (b2 <<< 8) ||| b3

/-- The `devproto_metrics_parse` scan loop: consume 5-byte records while
at least five bytes remain and the record limit is not reached
(`devproto_metric_decode` never fails on a non-null entry, so every
record is kept). -/
def metrics_parse_go : List Nat → Nat → List Metric
  | t :: a :: b :: c :: d :: rest, m + 1 =>
      ⟨t, devproto_float_from_be a b c d⟩ :: metrics_parse_go rest m
  | _, _ => []

/-- `devproto_metrics_parse`: `none` models the `-1` invalid-argument
return for `max_metrics == 0`; otherwise the limit is clamped to
`INT32_MAX` and the payload is scanned in 5-byte records. -/
def devproto_metrics_parse (payload : List Nat) (max_metrics : Nat) :
    Option (List Metric) :=
  if max_metrics = 0 then none
  else some (metrics_parse_go payload (min max_metrics 2147483647))

/-- Specification-level description of metric parsing, written from the
spec's words for comparison with the implementation: the payload is
`⌊L/5⌋` packed records, record `i` being the type byte at offset `5i`
followed by a big-endian 32-bit value at offsets `5i+1 … 5i+4`. -/
def metricsSpecParse (payload : List Nat) : List Metric :=
  (List.range (payload.length / 5)).map fun i =>
    ⟨payload.getD (5 * i) 0,
      devproto_float_from_be (payload.getD (5 * i + 1) 0) (payload.getD (5 * i + 2) 0)
        (payload.getD (5 * i + 3) 0) (payload.getD (5 * i + 4) 0)⟩

/-- `devproto_create_metrics_request`: kind `REQUEST_METRICS = 0x02`; a
non-null `types` pointer with positive count becomes the payload view
with the count narrowed to the 16-bit `payload_len` field; otherwise the
static single-byte `[0xFF]` "all metrics" payload is used. -/
def devproto_create_metrics_request (sequence : Nat) (types : Option (List Nat))
    (num_types : Nat) : MessageC :=
  match types with
  | some ts =>
      if num_types > 0 then ⟨0x02, sequence, num_types % 65536, some ts⟩
      else ⟨0x02, sequence, 1, some [0xFF]⟩
  | none => ⟨0x02, sequence, 1, some [0xFF]⟩

/-- `devproto_create_command`: kind `EXECUTE_COMMAND = 0x03`; the params
pointer becomes the payload view and the caller's `size_t` length is
narrowed to the 16-bit `payload_len` field (`cmd_type` is expected to be
the first byte of the caller's buffer and is otherwise unused). -/
def devproto_create_command (sequence : Nat) (cmd_type : Nat)
    (params : Option (List Nat)) (params_len : Nat) : MessageC :=
  ⟨0x03, sequence, params_len % 65536, params⟩

/-- Sequential stores into `pre ++ suf` starting right after `pre`
replace a prefix of `suf`. -/
theorem writeAt_eq (xs : List Nat) : ∀ (pre suf : List Nat),
    xs.length ≤ suf.length →
    writeAt (pre ++ suf) pre.length xs = pre ++ xs ++ suf.drop xs.length := by
  induction xs with
  | nil => intro pre suf _; simp [writeAt]
  | cons x rest ih =>
      intro pre suf h
      match suf with
      | [] => simp at h
      | s0 :: stail =>
          rw [writeAt, List.set_append_right _ _ (Nat.le_refl _), Nat.sub_self]
          have hstep : (pre ++ (s0 :: stail).set 0 x) = (pre ++ [x]) ++ stail := by
            simp
          have hlen : pre.length + 1 = (pre ++ [x]).length := by simp
          rw [hstep, hlen, ih (pre ++ [x]) stail (by simpa using h)]
          simp

/-- C6: `devproto_crc16` of the empty input is the initial value
`0xFFFF`; for all byte strings `a` and `b`,
`crc16 (a ++ b) = crc16_update (crc16 a) b`; and for every `x`,
`crc16_update 0xFFFF x = crc16 x`. -/
theorem crc16_streaming_identities :
    devproto_crc16 [] = 0xFFFF ∧
    (∀ a b : List Nat,
      devproto_crc16 (a ++ b) = devproto_crc16_update (devproto_crc16 a) b) ∧
    (∀ x : List Nat, devproto_crc16_update 0xFFFF x = devproto_crc16 x) := by
  refine ⟨rfl, fun a b => ?_, fun _ => rfl⟩
  unfold devproto_crc16 devproto_crc16_update
  exact List.foldl_append _ _ _ _

/-- C5: `devproto_frame_build` is fail-fast: a payload length above
`MAX_PAYLOAD = 4096` or an output buffer shorter than
`8 + payload_len` returns `-1` with the buffer untouched (no partial
write); otherwise exactly the first `8 + payload_len` bytes of the
buffer are overwritten with the frame — sync pair, big-endian length,
type, sequence, payload copy, then the big-endian CRC over bytes `0`
through `5 + payload_len` — the rest of the buffer is unchanged, and the
frame length is returned. -/
theorem frame_build_fail (msg : MessageC) (buffer : List Nat)
    (h : 4096 < msg.payload_len ∨ buffer.length < 8 + msg.payload_len) :
    devproto_frame_build msg buffer = (buffer, -1) := by
  unfold devproto_frame_build
  rcases h with h | h
  · rw [if_pos h]
  · by_cases h1 : msg.payload_len > 4096
    · rw [if_pos h1]
    · rw [if_neg h1]
      simp only
      rw [if_pos (by omega)]

theorem frame_build_ok (ty sq : Nat) (pl : List Nat) (buffer : List Nat)
    (hlen : pl.length ≤ 4096) (hbuf : 8 + pl.length ≤ buffer.length) :
    devproto_frame_build ⟨ty, sq, pl.length, some pl⟩ buffer =
      (frame_bytes ty sq pl ++ buffer.drop (8 + pl.length),
        ((8 + pl.length : Nat) : Int)) := by
  have h6 : (6 : Nat) ≤ buffer.length := by omega
  have hb1 : writeAt buffer 0
      [0xAA, 0x55, (pl.length >>> 8) &&& 0xFF, pl.length &&& 0xFF, ty, sq] =
      [0xAA, 0x55, (pl.length >>> 8) &&& 0xFF, pl.length &&& 0xFF, ty, sq] ++
        buffer.drop 6 := by
    have h := writeAt_eq
      [0xAA, 0x55, (pl.length >>> 8) &&& 0xFF, pl.length &&& 0xFF, ty, sq]
      [] buffer (by simpa using h6)
    simpa using h
  have hb2 : (if 0 < pl.length then
      writeAt ([0xAA, 0x55, (pl.length >>> 8) &&& 0xFF, pl.length &&& 0xFF, ty, sq] ++
        buffer.drop 6) 6 (pl.take pl.length)
      else ([0xAA, 0x55, (pl.length >>> 8) &&& 0xFF, pl.length &&& 0xFF, ty, sq] ++
        buffer.drop 6)) =
      ([0xAA, 0x55, (pl.length >>> 8) &&& 0xFF, pl.length &&& 0xFF, ty, sq] ++ pl) ++
        buffer.drop (6 + pl.length) := by
    by_cases h0 : 0 < pl.length
    · rw [if_pos h0, List.take_length]
      have h := writeAt_eq pl
        [0xAA, 0x55, (pl.length >>> 8) &&& 0xFF, pl.length &&& 0xFF, ty, sq]
        (buffer.drop 6) (by simp; omega)
      simp only [List.length_cons, List.length_nil] at h
      rw [show (6 : Nat) = 0 + 1 + 1 + 1 + 1 + 1 + 1 from rfl, h]
      simp [List.drop_drop, Nat.add_comm]
    · rw [if_neg h0]
      have hpl : pl = [] := List.eq_nil_of_length_eq_zero (by omega)
      subst hpl
      simp
  have htake : (([0xAA, 0x55, (pl.length >>> 8) &&& 0xFF, pl.length &&& 0xFF, ty, sq] ++ pl) ++
      buffer.drop (6 + pl.length)).take (6 + pl.length) =
      [0xAA, 0x55, (pl.length >>> 8) &&& 0xFF, pl.length &&& 0xFF, ty, sq] ++ pl := by
    apply List.take_left'
    simp
    omega
  unfold devproto_frame_build
  simp only [hb1, hb2, htake, gt_iff_lt]
  rw [if_neg (by omega), if_neg (by omega), if_neg (by omega)]
  have hcrc := writeAt_eq
    [(devproto_crc16
        ([0xAA, 0x55, (pl.length >>> 8) &&& 0xFF, pl.length &&& 0xFF, ty, sq] ++ pl) >>> 8) &&& 0xFF,
      devproto_crc16
        ([0xAA, 0x55, (pl.length >>> 8) &&& 0xFF, pl.length &&& 0xFF, ty, sq] ++ pl) &&& 0xFF]
    ([0xAA, 0x55, (pl.length >>> 8) &&& 0xFF, pl.length &&& 0xFF, ty, sq] ++ pl)
    (buffer.drop (6 + pl.length)) (by simp; omega)
  simp only [List.length_append, List.length_cons, List.length_nil] at hcrc
  rw [show (6 + pl.length : Nat) =
      (0 + 1 + 1 + 1 + 1 + 1 + 1 + pl.length : Nat) from by omega, hcrc]
  have hdd : List.drop (0 + 1 + 1) (List.drop (6 + pl.length) buffer) =
      List.drop (8 + pl.length) buffer := by
    rw [List.drop_drop]
    congr 1
    omega
  rw [hdd]
  simp only [Prod.mk.injEq]
  refine ⟨?_, congrArg _ (by omega)⟩
  unfold frame_bytes
  simp [List.append_assoc]


theorem frame_build_correct :
    (∀ (msg : MessageC) (buffer : List Nat),
      4096 < msg.payload_len ∨ buffer.length < 8 + msg.payload_len →
      devproto_frame_build msg buffer = (buffer, -1)) ∧
    (∀ (ty sq : Nat) (pl : List Nat) (buffer : List Nat),
      pl.length ≤ 4096 → 8 + pl.length ≤ buffer.length →
      devproto_frame_build ⟨ty, sq, pl.length, some pl⟩ buffer =
        (frame_bytes ty sq pl ++ buffer.drop (8 + pl.length),
          ((8 + pl.length : Nat) : Int))) :=
  ⟨frame_build_fail, frame_build_ok⟩

/-- Witness for C5: a concrete successful build (empty PING payload into
an 8-byte buffer) and a concrete fail-fast rejection (1-byte payload into
an empty buffer). -/
theorem frame_build_correct_witness :
    devproto_frame_build ⟨0x01, 0x01, 0, some []⟩ (List.replicate 8 0) =
      (frame_bytes 0x01 0x01 [], (8 : Int)) ∧
    devproto_frame_build ⟨0x01, 0x01, 1, some [0]⟩ [] = ([], -1) := by
  constructor
  · have h := frame_build_correct.2 0x01 0x01 [] (List.replicate 8 0)
      (by decide) (by decide)
    simpa using h
  · exact frame_build_correct.1 ⟨0x01, 0x01, 1, some [0]⟩ [] (by norm_num)

theorem feedTrace_append (a b : List Nat) : ∀ p : Parser,
    feedTrace p (a ++ b) =
      ((feedTrace (feedTrace p a).1 b).1,
        (feedTrace p a).2 ++ (feedTrace (feedTrace p a).1 b).2) := by
  induction a with
  | nil => intro p; simp [feedTrace]
  | cons x rest ih => intro p; simp [feedTrace, ih]

theorem feed_eq_feedTrace (data : List Nat) : ∀ p : Parser,
    feed p data = (feedTrace p data).1 := by
  induction data with
  | nil => intro p; simp [feed, feedTrace]
  | cons x rest ih =>
      intro p
      simp [feed, feedTrace] at ih ⊢
      exact ih _

/-- Feeding the six header bytes of a frame with payload length
`L ≤ 4096` to a parser in `IDLE` — or in `HEADER_LO` holding a lone
false-sync `0xAA`, since the frame's own `0xAA` restarts the match
there — walks the machine to `PAYLOAD` (or straight to `CRC_HI` when
`L = 0`), capturing the header bytes, the length, the type and the
sequence; all six calls return `0`. -/
theorem feed_header (p : Parser) (ty sq L : Nat)
    (hstate : p.state = FrameState.IDLE ∨
      (p.state = FrameState.HEADER_LO ∧ p.buffer = [0xAA]))
    (hty : ty < 256) (hsq : sq < 256)
    (hL : L ≤ 4096) :
    feedTrace p [0xAA, 0x55, (L >>> 8) &&& 0xFF, L &&& 0xFF, ty, sq] =
      ({ p with
          state := if L = 0 then FrameState.CRC_HI else FrameState.PAYLOAD
          buffer := [0xAA, 0x55, (L >>> 8) &&& 0xFF, L &&& 0xFF, ty, sq]
          expected_length := L
          msg_type := ty
          sequence := sq
          payload_received := 0 }, [0, 0, 0, 0, 0, 0]) := by
  have hlh : (L >>> 8) &&& 0xFF < 256 :=
    Nat.lt_of_le_of_lt Nat.and_le_right (by norm_num)
  have hll : L &&& 0xFF < 256 :=
    Nat.lt_of_le_of_lt Nat.and_le_right (by norm_num)
  have hrec : (((L >>> 8) &&& 0xFF) <<< 8) ||| (L &&& 0xFF) = L :=
    be16_recombine L (by omega)
  have h1 : devproto_frame_parse_byte p 0xAA =
      ({ p with buffer := [0xAA], state := FrameState.HEADER_LO }, 0) := by
    rcases hstate with h | ⟨h, hb⟩
    · simp [devproto_frame_parse_byte, h]
    · simp only [devproto_frame_parse_byte, h]
      norm_num
  show feedTrace p ([0xAA] ++ [0x55, (L >>> 8) &&& 0xFF, L &&& 0xFF, ty, sq]) = _
  rw [feedTrace_append]
  have h2 : feedTrace p [0xAA] =
      ({ p with buffer := [0xAA], state := FrameState.HEADER_LO }, [0]) := by
    simp [feedTrace, h1]
  rw [h2]
  simp only [feedTrace, devproto_frame_parse_byte,
    Nat.mod_eq_of_lt hlh, Nat.mod_eq_of_lt hll, Nat.mod_eq_of_lt hty,
    Nat.mod_eq_of_lt hsq]
  norm_num
  rw [hrec]
  rw [if_neg (by omega : ¬ L > 4096)]
  by_cases hL0 : L = 0
  · simp [hL0]
  · simp [hL0]

/-- Feeding the payload bytes of an in-progress frame appends them to
the buffer and moves to `CRC_HI` once `expected_length` bytes have
arrived; every call returns `0`. The buffer-exhaustion branch is never
taken because `expected_length ≤ 4096` keeps the write position below
`4104`. -/
theorem feed_payload (xs : List Nat) : ∀ (p : Parser) (k : Nat),
    p.state = .PAYLOAD → (∀ x ∈ xs, x < 256) →
    p.payload_received = k → p.buffer.length = 6 + k →
    p.expected_length ≤ 4096 → k + xs.length = p.expected_length →
    xs ≠ [] →
    feedTrace p xs =
      ({ p with
          state := FrameState.CRC_HI
          buffer := p.buffer ++ xs
          payload_received := p.expected_length },
        List.replicate xs.length 0) := by
  induction xs with
  | nil => intro p k _ _ _ _ _ _ hne; exact absurd rfl hne
  | cons x rest ih =>
      intro p k hstate hx hk hbuf hexp hcount _
      have hx0 : x < 256 := hx x (List.mem_cons_self x rest)
      have hkx : k < p.expected_length := by
        simp only [List.length_cons] at hcount
        omega
      have hroom : p.buffer.length < 4104 := by omega
      by_cases hr : rest = []
      · subst hr
        simp only [List.length_cons, List.length_nil] at hcount
        simp only [feedTrace, devproto_frame_parse_byte, hstate,
          Nat.mod_eq_of_lt hx0, if_pos hroom, hk]
        rw [if_pos (by omega : k + 1 ≥ p.expected_length)]
        simp only [feedTrace]
        have hfin : k + 1 = p.expected_length := by omega
        simp [hfin]
      · have hrest : 0 < rest.length := List.length_pos.mpr hr
        simp only [List.length_cons] at hcount
        simp only [feedTrace, devproto_frame_parse_byte, hstate,
          Nat.mod_eq_of_lt hx0, if_pos hroom, hk]
        rw [if_neg (by omega : ¬ k + 1 ≥ p.expected_length)]
        rw [ih { p with
            state := FrameState.PAYLOAD
            buffer := p.buffer ++ [x]
            payload_received := k + 1 } (k + 1) rfl
          (fun y hy => hx y (List.mem_cons_of_mem x hy)) rfl
          (by simp [hbuf]; omega) hexp (by simp; omega) hr]
        simp [List.replicate_succ]

/-- Feeding the two big-endian CRC bytes that match the captured frame
bytes completes the frame: the first call returns `0`, the second `1`,
and `frames_parsed` is incremented with the other counters untouched. -/
theorem feed_crc (p : Parser)
    (hstate : p.state = .CRC_HI)
    (hbuf : p.buffer.length = 6 + p.expected_length) :
    feedTrace p [(devproto_crc16 p.buffer >>> 8) &&& 0xFF,
        devproto_crc16 p.buffer &&& 0xFF] =
      ({ p with
          state := FrameState.COMPLETE
          crc_received := devproto_crc16 p.buffer
          frames_parsed := (p.frames_parsed + 1) % 4294967296 }, [0, 1]) := by
  have hc : devproto_crc16 p.buffer < 65536 := devproto_crc16_lt _
  have hhi : (devproto_crc16 p.buffer >>> 8) &&& 0xFF < 256 :=
    Nat.lt_of_le_of_lt Nat.and_le_right (by norm_num)
  have hlo : devproto_crc16 p.buffer &&& 0xFF < 256 :=
    Nat.lt_of_le_of_lt Nat.and_le_right (by norm_num)
  have hrec := be16_recombine (devproto_crc16 p.buffer) hc
  have htake : p.buffer.take (6 + p.expected_length) = p.buffer := by
    rw [← hbuf]
    exact List.take_length _
  simp only [feedTrace, devproto_frame_parse_byte, hstate,
    Nat.mod_eq_of_lt hhi, Nat.mod_eq_of_lt hlo]
  simp only [htake, hrec]
  simp

/-- Feeding a whole built frame to a parser in `IDLE` (with arbitrary
counters) completes exactly that frame: all calls return `0` except the
last, which returns `1`, and `frames_parsed` is incremented once. -/
theorem feed_frame (p : Parser) (ty sq : Nat) (pl : List Nat)
    (hstate : p.state = FrameState.IDLE ∨
      (p.state = FrameState.HEADER_LO ∧ p.buffer = [0xAA]))
    (hty : ty < 256) (hsq : sq < 256)
    (hpl : ∀ x ∈ pl, x < 256) (hlen : pl.length ≤ 4096) :
    feedTrace p (frame_bytes ty sq pl) =
      ({ p with
          state := FrameState.COMPLETE
          buffer := [0xAA, 0x55, (pl.length >>> 8) &&& 0xFF,
            pl.length &&& 0xFF, ty, sq] ++ pl
          expected_length := pl.length
          msg_type := ty
          sequence := sq
          payload_received := pl.length
          crc_received := devproto_crc16
            ([0xAA, 0x55, (pl.length >>> 8) &&& 0xFF,
              pl.length &&& 0xFF, ty, sq] ++ pl)
          frames_parsed := (p.frames_parsed + 1) % 4294967296 },
        List.replicate (7 + pl.length) 0 ++ [1]) := by
  have hhdr := feed_header p ty sq pl.length hstate hty hsq hlen
  by_cases hL0 : pl.length = 0
  · have hpl0 : pl = [] := List.eq_nil_of_length_eq_zero hL0
    subst hpl0
    norm_num at hhdr ⊢
    have hc : frame_bytes ty sq [] =
        [0xAA, 0x55, 0, 0, ty, sq] ++
          [(devproto_crc16 [0xAA, 0x55, 0, 0, ty, sq] >>> 8) &&& 0xFF,
            devproto_crc16 [0xAA, 0x55, 0, 0, ty, sq] &&& 0xFF] := by
      simp [frame_bytes]
    rw [hc, feedTrace_append, hhdr]
    rw [feed_crc _ rfl (by simp)]
    simp [List.replicate_succ]
  · have hchunks : frame_bytes ty sq pl =
        [0xAA, 0x55, (pl.length >>> 8) &&& 0xFF, pl.length &&& 0xFF, ty, sq] ++
          (pl ++ [(devproto_crc16
              ([0xAA, 0x55, (pl.length >>> 8) &&& 0xFF, pl.length &&& 0xFF, ty, sq] ++ pl)
              >>> 8) &&& 0xFF,
            devproto_crc16
              ([0xAA, 0x55, (pl.length >>> 8) &&& 0xFF, pl.length &&& 0xFF, ty, sq] ++ pl)
              &&& 0xFF]) := by
      unfold frame_bytes
      simp
    rw [hchunks, feedTrace_append, hhdr]
    simp only [if_neg hL0]
    rw [feedTrace_append]
    rw [feed_payload pl _ 0 rfl hpl rfl (by simp) (by simpa using hlen)
      (by simp) (by simpa using hL0)]
    simp only
    rw [feed_crc _ rfl
      (by simp only [List.length_append, List.length_cons, List.length_nil])]
    simp only [Prod.mk.injEq]
    refine ⟨by trivial, ?_⟩
    rw [show (7 + pl.length : Nat) = 6 + (pl.length + 1) from by omega,
      List.replicate_add]
    have h6 : List.replicate 6 (0 : Int) = [0, 0, 0, 0, 0, 0] := rfl
    rw [h6, List.replicate_succ']
    simp

/-- Chunked feeding is feeding the concatenation: folding `feed` over a
chunk list equals one pass over the joined bytes. -/
theorem feed_join (chunks : List (List Nat)) : ∀ p : Parser,
    chunks.foldl feed p = feed p chunks.flatten := by
  induction chunks with
  | nil => intro p; simp [feed]
  | cons c rest ih =>
      intro p
      simp only [List.foldl_cons, List.flatten_cons, ih]
      unfold feed
      rw [List.foldl_append]

/-- C1: frame round-trip. For every kind, sequence byte and payload of
length at most 4096: building into a buffer of at least `8 + L` bytes
succeeds, returning `8 + L` and writing the frame bytes; feeding those
`8 + L` bytes to a freshly initialized parser one byte at a time makes
`devproto_frame_parse_byte` return `0` for the first `7 + L` bytes and
`1` for the last, the surfaced message carries the original type,
sequence and payload, `frames_parsed` ends at `1`, and splitting the
bytes into chunks of any sizes leaves the resulting parser identical
(no chunk boundary changes the result). -/
theorem frame_roundtrip (ty sq : Nat) (pl : List Nat)
    (hty : ty < 256) (hsq : sq < 256) (hpl : ∀ x ∈ pl, x < 256)
    (hlen : pl.length ≤ 4096) :
    (∀ buffer : List Nat, 8 + pl.length ≤ buffer.length →
      devproto_frame_build ⟨ty, sq, pl.length, some pl⟩ buffer =
        (frame_bytes ty sq pl ++ buffer.drop (8 + pl.length),
          ((8 + pl.length : Nat) : Int))) ∧
    (feedTrace devproto_frame_parser_init (frame_bytes ty sq pl)).2 =
      List.replicate (7 + pl.length) 0 ++ [1] ∧
    devproto_frame_get_message
        (feedTrace devproto_frame_parser_init (frame_bytes ty sq pl)).1 =
      some ⟨ty, sq, pl⟩ ∧
    (feedTrace devproto_frame_parser_init (frame_bytes ty sq pl)).1.frames_parsed = 1 ∧
    (feedTrace devproto_frame_parser_init (frame_bytes ty sq pl)).1.crc_errors = 0 ∧
    (feedTrace devproto_frame_parser_init (frame_bytes ty sq pl)).1.sync_errors = 0 ∧
    (∀ chunks : List (List Nat), chunks.flatten = frame_bytes ty sq pl →
      chunks.foldl feed devproto_frame_parser_init =
        (feedTrace devproto_frame_parser_init (frame_bytes ty sq pl)).1) := by
  have hff := feed_frame devproto_frame_parser_init ty sq pl (Or.inl rfl) hty hsq hpl hlen
  refine ⟨fun buffer hbuf => frame_build_ok ty sq pl buffer hlen hbuf,
    ?_, ?_, ?_, ?_, ?_, ?_⟩
  · rw [hff]
  · rw [hff]
    unfold devproto_frame_get_message
    rw [if_pos rfl]
    simp only [Option.some.injEq]
    have hdrop : (([0xAA, 0x55, (pl.length >>> 8) &&& 0xFF, pl.length &&& 0xFF,
        ty, sq] ++ pl).drop 6) = pl := by
      simp
    rw [hdrop]
    simp [List.take_of_length_le]
  · rw [hff]
    rfl
  · rw [hff]
    rfl
  · rw [hff]
    rfl
  · intro chunks hch
    rw [feed_join, hch, feed_eq_feedTrace]

/-- Witness for C1: the concrete PING round-trip of spec scenario (a)
(kind `0x01`, sequence `0x01`, empty payload). -/
theorem frame_roundtrip_witness :
    devproto_frame_build ⟨0x01, 0x01, 0, some []⟩ (List.replicate 8 0) =
      (frame_bytes 0x01 0x01 [] ++ [], (8 : Int)) ∧
    (feedTrace devproto_frame_parser_init (frame_bytes 0x01 0x01 [])).2 =
      List.replicate 7 0 ++ [1] ∧
    devproto_frame_get_message
        (feedTrace devproto_frame_parser_init (frame_bytes 0x01 0x01 [])).1 =
      some ⟨0x01, 0x01, []⟩ := by
  have h := frame_roundtrip 0x01 0x01 [] (by norm_num) (by norm_num)
    (by simp) (by simp)
  refine ⟨?_, h.2.1, h.2.2.1⟩
  have hb := h.1 (List.replicate 8 0) (by simp)
  simpa using hb

/-- C3: a CRC mismatch on a fully received frame — detected at the CRC
low byte — increments `crc_errors`, emits no message, returns the CRC
error code `-1`, and resets the parser to `IDLE` (so following bytes
re-enter the sync search); `frames_parsed` and `sync_errors` are
untouched, only the current frame is discarded. In particular a valid
8-byte PING frame with its last byte XORed with `0xFF` fed to a fresh
parser leaves `crc_errors = 1`, `frames_parsed = 0` and no message. -/
theorem crc_mismatch_discards_frame :
    (∀ (p : Parser) (b : Nat), p.state = FrameState.CRC_LO →
      devproto_crc16 (p.buffer.take (6 + p.expected_length)) ≠
        (p.crc_received ||| b % 256) →
      (devproto_frame_parse_byte p b).2 = -1 ∧
      (devproto_frame_parse_byte p b).1.state = FrameState.IDLE ∧
      (devproto_frame_parse_byte p b).1.buffer = [] ∧
      (devproto_frame_parse_byte p b).1.crc_errors = (p.crc_errors + 1) % 4294967296 ∧
      (devproto_frame_parse_byte p b).1.frames_parsed = p.frames_parsed ∧
      (devproto_frame_parse_byte p b).1.sync_errors = p.sync_errors ∧
      devproto_frame_get_message (devproto_frame_parse_byte p b).1 = none) ∧
    ((feed devproto_frame_parser_init
        ((frame_bytes 0x01 0x01 []).dropLast ++
          [(frame_bytes 0x01 0x01 []).getLastD 0 ^^^ 0xFF])).crc_errors = 1 ∧
      (feed devproto_frame_parser_init
        ((frame_bytes 0x01 0x01 []).dropLast ++
          [(frame_bytes 0x01 0x01 []).getLastD 0 ^^^ 0xFF])).frames_parsed = 0 ∧
      devproto_frame_get_message
        (feed devproto_frame_parser_init
          ((frame_bytes 0x01 0x01 []).dropLast ++
            [(frame_bytes 0x01 0x01 []).getLastD 0 ^^^ 0xFF])) = none) := by
  constructor
  · intro p b hstate hne
    simp only [devproto_frame_parse_byte, hstate]
    rw [if_neg hne]
    refine ⟨rfl, rfl, rfl, rfl, rfl, rfl, rfl⟩
  · refine ⟨by decide, by decide, by decide⟩

/-- Witness for C3: the corrupted-PING stream puts a fresh parser in
`CRC_LO` after seven bytes, and the mismatching final byte is rejected
with code `-1`, incrementing `crc_errors` to 1. -/
theorem crc_mismatch_discards_frame_witness :
    (devproto_frame_parse_byte
        (feed devproto_frame_parser_init [0xAA, 0x55, 0x00, 0x00, 0x01, 0x01, 0x7C])
        (0x4F ^^^ 0xFF)).2 = -1 ∧
    (devproto_frame_parse_byte
        (feed devproto_frame_parser_init [0xAA, 0x55, 0x00, 0x00, 0x01, 0x01, 0x7C])
        (0x4F ^^^ 0xFF)).1.crc_errors =
      ((feed devproto_frame_parser_init
        [0xAA, 0x55, 0x00, 0x00, 0x01, 0x01, 0x7C]).crc_errors + 1) % 4294967296 := by
  have h := crc_mismatch_discards_frame.1
    (feed devproto_frame_parser_init [0xAA, 0x55, 0x00, 0x00, 0x01, 0x01, 0x7C])
    (0x4F ^^^ 0xFF) (by decide) (by decide)
  exact ⟨h.1, h.2.2.2.1⟩

/-- C4: a declared payload length above 4096, composed at the length-low
byte, is rejected immediately: `sync_errors` is incremented, the parser
is reset to `IDLE` with an empty buffer (no payload byte is ever
buffered), and the overflow code `-2` is returned. In particular the
header `AA 55 10 01 01 01` (length 4097) is rejected at the fourth byte
with `sync_errors = 1`, and the remaining bytes of that frame are not
consumed (they leave the parser unchanged in the `IDLE` sync search). -/
theorem oversize_rejected :
    (∀ (p : Parser) (b : Nat), p.state = FrameState.LENGTH_LO →
      (p.expected_length ||| b % 256) > 4096 →
      (devproto_frame_parse_byte p b).2 = -2 ∧
      (devproto_frame_parse_byte p b).1.state = FrameState.IDLE ∧
      (devproto_frame_parse_byte p b).1.buffer = [] ∧
      (devproto_frame_parse_byte p b).1.sync_errors = (p.sync_errors + 1) % 4294967296 ∧
      (devproto_frame_parse_byte p b).1.frames_parsed = p.frames_parsed ∧
      (devproto_frame_parse_byte p b).1.crc_errors = p.crc_errors) ∧
    (feedTrace devproto_frame_parser_init [0xAA, 0x55, 0x10, 0x01]).2 =
      [0, 0, 0, -2] ∧
    (feed devproto_frame_parser_init [0xAA, 0x55, 0x10, 0x01]).state =
      FrameState.IDLE ∧
    (feed devproto_frame_parser_init [0xAA, 0x55, 0x10, 0x01]).sync_errors = 1 ∧
    (feed devproto_frame_parser_init [0xAA, 0x55, 0x10, 0x01]).buffer = [] ∧
    feed devproto_frame_parser_init [0xAA, 0x55, 0x10, 0x01, 0x01, 0x01] =
      feed devproto_frame_parser_init [0xAA, 0x55, 0x10, 0x01] := by
  refine ⟨?_, by decide, by decide, by decide, by decide, by decide⟩
  intro p b hstate hover
  simp only [devproto_frame_parse_byte, hstate]
  rw [if_pos hover]
  refine ⟨rfl, rfl, rfl, rfl, rfl, rfl⟩

/-- Witness for C4: a fresh parser fed `AA 55 10` is in `LENGTH_LO`, and
the byte `0x01` composing length 4097 is rejected with code `-2` and a
sync-error increment. -/
theorem oversize_rejected_witness :
    (devproto_frame_parse_byte
        (feed devproto_frame_parser_init [0xAA, 0x55, 0x10]) 0x01).2 = -2 ∧
    (devproto_frame_parse_byte
        (feed devproto_frame_parser_init [0xAA, 0x55, 0x10]) 0x01).1.sync_errors =
      ((feed devproto_frame_parser_init [0xAA, 0x55, 0x10]).sync_errors + 1) % 4294967296 := by
  have h := oversize_rejected.1
    (feed devproto_frame_parser_init [0xAA, 0x55, 0x10]) 0x01
    (by decide) (by decide)
  exact ⟨h.1, h.2.2.2.1⟩

theorem parse_byte_counters_step (p : Parser) (b : Nat) :
    ((devproto_frame_parse_byte p b).1.frames_parsed = p.frames_parsed ∨
      (devproto_frame_parse_byte p b).1.frames_parsed =
        (p.frames_parsed + 1) % 4294967296) ∧
    ((devproto_frame_parse_byte p b).1.crc_errors = p.crc_errors ∨
      (devproto_frame_parse_byte p b).1.crc_errors =
        (p.crc_errors + 1) % 4294967296) ∧
    ((devproto_frame_parse_byte p b).1.sync_errors = p.sync_errors ∨
      (devproto_frame_parse_byte p b).1.sync_errors =
        (p.sync_errors + 1) % 4294967296) := by
  rcases p with ⟨st, buf, el, pr, mt, sz, cr, fp, ce, se⟩
  cases st <;>
    simp only [devproto_frame_parse_byte, devproto_frame_parser_reset] <;>
    (try split_ifs) <;> (try dsimp only) <;> simp

theorem parse_byte_counters_le (p : Parser) (b : Nat)
    (hf : p.frames_parsed + 1 < 4294967296)
    (hc : p.crc_errors + 1 < 4294967296)
    (hs : p.sync_errors + 1 < 4294967296) :
    (p.frames_parsed ≤ (devproto_frame_parse_byte p b).1.frames_parsed ∧
      (devproto_frame_parse_byte p b).1.frames_parsed ≤ p.frames_parsed + 1) ∧
    (p.crc_errors ≤ (devproto_frame_parse_byte p b).1.crc_errors ∧
      (devproto_frame_parse_byte p b).1.crc_errors ≤ p.crc_errors + 1) ∧
    (p.sync_errors ≤ (devproto_frame_parse_byte p b).1.sync_errors ∧
      (devproto_frame_parse_byte p b).1.sync_errors ≤ p.sync_errors + 1) := by
  have h := parse_byte_counters_step p b
  rw [Nat.mod_eq_of_lt hf, Nat.mod_eq_of_lt hc, Nat.mod_eq_of_lt hs] at h
  rcases h with ⟨h1 | h1, h2 | h2, h3 | h3⟩ <;> omega

theorem frameParseStep_counters (m : Nat) (acc : Parser × List Message) (b : Nat)
    (hf : acc.1.frames_parsed + 1 < 4294967296)
    (hc : acc.1.crc_errors + 1 < 4294967296)
    (hs : acc.1.sync_errors + 1 < 4294967296) :
    (acc.1.frames_parsed ≤ (frameParseStep m acc b).1.frames_parsed ∧
      (frameParseStep m acc b).1.frames_parsed ≤ acc.1.frames_parsed + 1) ∧
    (acc.1.crc_errors ≤ (frameParseStep m acc b).1.crc_errors ∧
      (frameParseStep m acc b).1.crc_errors ≤ acc.1.crc_errors + 1) ∧
    (acc.1.sync_errors ≤ (frameParseStep m acc b).1.sync_errors ∧
      (frameParseStep m acc b).1.sync_errors ≤ acc.1.sync_errors + 1) := by
  have hpb := parse_byte_counters_le acc.1 b hf hc hs
  unfold frameParseStep
  by_cases h1 : acc.2.length < m
  · rw [if_pos h1]
    by_cases h2 : (devproto_frame_parse_byte acc.1 b).2 = 1
    · rw [if_pos h2]
      rcases hget : devproto_frame_get_message (devproto_frame_parse_byte acc.1 b).1 with _ | msg
      · simp only [hget]
        exact hpb
      · simp only [hget]
        exact hpb
    · rw [if_neg h2]
      exact hpb
  · rw [if_neg h1]
    exact ⟨⟨Nat.le_refl _, Nat.le_succ _⟩, ⟨Nat.le_refl _, Nat.le_succ _⟩,
      ⟨Nat.le_refl _, Nat.le_succ _⟩⟩

theorem foldl_frameParseStep_counters (data : List Nat) (m : Nat) :
    ∀ acc : Parser × List Message,
    acc.1.frames_parsed + data.length < 4294967296 →
    acc.1.crc_errors + data.length < 4294967296 →
    acc.1.sync_errors + data.length < 4294967296 →
    (acc.1.frames_parsed ≤ (data.foldl (frameParseStep m) acc).1.frames_parsed ∧
      (data.foldl (frameParseStep m) acc).1.frames_parsed ≤
        acc.1.frames_parsed + data.length) ∧
    (acc.1.crc_errors ≤ (data.foldl (frameParseStep m) acc).1.crc_errors ∧
      (data.foldl (frameParseStep m) acc).1.crc_errors ≤
        acc.1.crc_errors + data.length) ∧
    (acc.1.sync_errors ≤ (data.foldl (frameParseStep m) acc).1.sync_errors ∧
      (data.foldl (frameParseStep m) acc).1.sync_errors ≤
        acc.1.sync_errors + data.length) := by
  induction data with
  | nil =>
      intro acc _ _ _
      simp only [List.foldl_nil, List.length_nil]
      omega
  | cons b rest ih =>
      intro acc h1 h2 h3
      simp only [List.length_cons] at h1 h2 h3 ⊢
      obtain ⟨⟨hs1, hs2⟩, ⟨hs3, hs4⟩, hs5, hs6⟩ :=
        frameParseStep_counters m acc b (by omega) (by omega) (by omega)
      obtain ⟨⟨hi1, hi2⟩, ⟨hi3, hi4⟩, hi5, hi6⟩ :=
        ih (frameParseStep m acc b) (by omega) (by omega) (by omega)
      simp only [List.foldl_cons]
      omega

/-- C8 (amended): counter behaviour. The three statistics counters are
`uint32_t` and each increment wraps at `2^32`, so "never decrease" holds
except across a wrap: every `devproto_frame_parse_byte` call leaves each
counter either exactly unchanged or bumped to `(c + 1) % 2^32`; whenever
no counter is about to wrap, neither `devproto_frame_parse_byte` nor a
`devproto_frame_parse` run over `n` bytes (which raises each counter by
at most `n`) decreases any counter; and `devproto_frame_parser_reset`
returns the parser to `IDLE`, discarding the in-progress frame (buffer
position, expected length, received payload count, type, sequence and
received CRC all cleared), while leaving all three counters exactly
unchanged. -/
theorem counters_monotone :
    (∀ (p : Parser) (b : Nat),
      ((devproto_frame_parse_byte p b).1.frames_parsed = p.frames_parsed ∨
        (devproto_frame_parse_byte p b).1.frames_parsed =
          (p.frames_parsed + 1) % 4294967296) ∧
      ((devproto_frame_parse_byte p b).1.crc_errors = p.crc_errors ∨
        (devproto_frame_parse_byte p b).1.crc_errors =
          (p.crc_errors + 1) % 4294967296) ∧
      ((devproto_frame_parse_byte p b).1.sync_errors = p.sync_errors ∨
        (devproto_frame_parse_byte p b).1.sync_errors =
          (p.sync_errors + 1) % 4294967296)) ∧
    (∀ (p : Parser) (b : Nat),
      p.frames_parsed + 1 < 4294967296 → p.crc_errors + 1 < 4294967296 →
      p.sync_errors + 1 < 4294967296 →
      p.frames_parsed ≤ (devproto_frame_parse_byte p b).1.frames_parsed ∧
      p.crc_errors ≤ (devproto_frame_parse_byte p b).1.crc_errors ∧
      p.sync_errors ≤ (devproto_frame_parse_byte p b).1.sync_errors) ∧
    (∀ (p : Parser) (data : List Nat) (m : Nat) (q : Parser)
      (msgs : List Message),
      devproto_frame_parse p data m = some (q, msgs) →
      p.frames_parsed + data.length < 4294967296 →
      p.crc_errors + data.length < 4294967296 →
      p.sync_errors + data.length < 4294967296 →
      (p.frames_parsed ≤ q.frames_parsed ∧
        q.frames_parsed ≤ p.frames_parsed + data.length) ∧
      (p.crc_errors ≤ q.crc_errors ∧ q.crc_errors ≤ p.crc_errors + data.length) ∧
      (p.sync_errors ≤ q.sync_errors ∧
        q.sync_errors ≤ p.sync_errors + data.length)) ∧
    (∀ p : Parser,
      devproto_frame_parser_reset p =
        { p with
            state := FrameState.IDLE
            buffer := []
            expected_length := 0
            payload_received := 0
            msg_type := 0
            sequence := 0
            crc_received := 0 } ∧
      (devproto_frame_parser_reset p).frames_parsed = p.frames_parsed ∧
      (devproto_frame_parser_reset p).crc_errors = p.crc_errors ∧
      (devproto_frame_parser_reset p).sync_errors = p.sync_errors) := by
  refine ⟨parse_byte_counters_step, ?_, ?_, fun p => ⟨rfl, rfl, rfl, rfl⟩⟩
  · intro p b hf hc hs
    obtain ⟨⟨h1, _⟩, ⟨h2, _⟩, h3, _⟩ := parse_byte_counters_le p b hf hc hs
    exact ⟨h1, h2, h3⟩
  · intro p data m q msgs h hf hc hs
    unfold devproto_frame_parse at h
    by_cases hm : m = 0
    · rw [if_pos hm] at h
      exact absurd h (by simp)
    · rw [if_neg hm, Option.some.injEq] at h
      have hcc := foldl_frameParseStep_counters data (min m 2147483647) (p, [])
        hf hc hs
      rw [h] at hcc
      exact hcc

/-- Counterexample to C8 as stated: the counters are 32-bit and wrap. At
the state with `sync_errors = 2^32 - 1` — reachable after `2^32 - 1`
failed sync pairs — a non-sync byte in `HEADER_LO` wraps `sync_errors`
to `0`, a strict decrease. -/
theorem counters_monotone_counterexample :
    (devproto_frame_parse_byte
      ⟨FrameState.HEADER_LO, [0xAA], 0, 0, 0, 0, 0, 0, 0, 4294967295⟩
      0).1.sync_errors = 0 ∧
    ¬ (4294967295 : Nat) ≤ (devproto_frame_parse_byte
      ⟨FrameState.HEADER_LO, [0xAA], 0, 0, 0, 0, 0, 0, 0, 4294967295⟩
      0).1.sync_errors := by
  refine ⟨by decide, by decide⟩

/-- Witness for C8: bulk-parsing a single `0xAA` byte from a fresh
parser (all counters far from the wrap) leaves every counter at its
previous value or above. -/
theorem counters_monotone_witness :
    devproto_frame_parser_init.frames_parsed ≤
      ({ devproto_frame_parser_init with
          state := FrameState.HEADER_LO
          buffer := [0xAA] } : Parser).frames_parsed := by
  have h := counters_monotone.2.2.1 devproto_frame_parser_init [0xAA] 1
    ({ devproto_frame_parser_init with
        state := FrameState.HEADER_LO
        buffer := [0xAA] }) [] (by decide) (by decide) (by decide) (by decide)
  exact h.1.1

/-- The parser's reachability invariant: in each state the buffer holds
exactly the bytes captured so far for the current frame, and the length
field is validated (`≤ 4096`) from `TYPE` on. The `ERROR` state is never
observable after a call returns. -/
def Inv (p : Parser) : Prop :=
  match p.state with
  | .IDLE => p.buffer = []
  | .HEADER_LO => p.buffer.length = 1
  | .LENGTH_HI => p.buffer.length = 2
  | .LENGTH_LO => p.buffer.length = 3 ∧ p.expected_length ≤ 65280
  | .TYPE => p.buffer.length = 4 ∧ p.expected_length ≤ 4096
  | .SEQUENCE => p.buffer.length = 5 ∧ p.expected_length ≤ 4096
  | .PAYLOAD => p.buffer.length = 6 + p.payload_received ∧
      p.payload_received < p.expected_length ∧ p.expected_length ≤ 4096
  | .CRC_HI => p.buffer.length = 6 + p.expected_length ∧ p.expected_length ≤ 4096
  | .CRC_LO => p.buffer.length = 6 + p.expected_length ∧ p.expected_length ≤ 4096
  | .COMPLETE => p.buffer.length = 6 + p.expected_length ∧ p.expected_length ≤ 4096
  | .ERROR => False

theorem Inv_init : Inv devproto_frame_parser_init := rfl

theorem Inv_preserve (p : Parser) (b : Nat) (h : Inv p) :
    Inv (devproto_frame_parse_byte p b).1 := by
  rcases p with ⟨st, buf, el, pr, mt, sz, cr, fp, ce, se⟩
  cases st <;>
    simp only [Inv, devproto_frame_parse_byte, devproto_frame_parser_reset] at h ⊢ <;>
    (try split_ifs) <;> (try dsimp only) <;> simp_all [Inv] <;> omega

theorem Inv_feed (data : List Nat) : ∀ p : Parser, Inv p →
    Inv (feed p data) := by
  induction data with
  | nil => intro p h; exact h
  | cons x rest ih =>
      intro p h
      exact ih _ (Inv_preserve p x h)

theorem Inv_buffer_le (p : Parser) (h : Inv p) : p.buffer.length ≤ 4102 := by
  rcases p with ⟨st, buf, el, pr, mt, sz, cr, fp, ce, se⟩
  cases st <;> simp only [Inv] at h <;> simp_all <;> omega

/-- C9: buffer safety. Every parser state reachable from an initialized
parser keeps the buffer position at most `4102 < 4104`, so every store
into the internal frame buffer is in bounds; in particular, in the
`PAYLOAD` state the buffer-exhaustion branch (which would return the
overflow code `-2`) is unreachable: any byte fed there is accepted
(return code `0`) and the write stays inside the buffer. -/
theorem parser_buffer_in_bounds (data : List Nat) (b : Nat) :
    (feed devproto_frame_parser_init data).buffer.length ≤ 4102 ∧
    (devproto_frame_parse_byte (feed devproto_frame_parser_init data) b).1.buffer.length ≤ 4102 ∧
    ((feed devproto_frame_parser_init data).state = FrameState.PAYLOAD →
      (devproto_frame_parse_byte (feed devproto_frame_parser_init data) b).2 = 0 ∧
      (devproto_frame_parse_byte (feed devproto_frame_parser_init data) b).2 ≠ -2) := by
  have hinv : Inv (feed devproto_frame_parser_init data) :=
    Inv_feed data devproto_frame_parser_init Inv_init
  refine ⟨Inv_buffer_le _ hinv,
    Inv_buffer_le _ (Inv_preserve _ b hinv), fun hst => ?_⟩
  rcases hp : feed devproto_frame_parser_init data with ⟨st, buf, el, pr, mt, sz, cr, fp, ce, se⟩
  rw [hp] at hst hinv
  subst hst
  simp only [Inv] at hinv
  have hroom : buf.length < 4104 := by
    rcases hinv with ⟨h1, h2, h3⟩
    omega
  simp only [devproto_frame_parse_byte, if_pos hroom]
  split_ifs <;> exact ⟨rfl, by simp⟩

/-- Witness for C9: after the header `AA 55 00 01 07 09` the parser is
in `PAYLOAD`, and feeding a payload byte there is accepted in bounds. -/
theorem parser_buffer_in_bounds_witness :
    (feed devproto_frame_parser_init [0xAA, 0x55, 0x00, 0x01, 0x07, 0x09]).state =
      FrameState.PAYLOAD ∧
    (devproto_frame_parse_byte
      (feed devproto_frame_parser_init [0xAA, 0x55, 0x00, 0x01, 0x07, 0x09]) 5).2 = 0 := by
  refine ⟨by decide, ?_⟩
  exact ((parser_buffer_in_bounds [0xAA, 0x55, 0x00, 0x01, 0x07, 0x09] 5).2.2 (by decide)).1

theorem parse_byte_one_complete (p : Parser) (b : Nat)
    (h : (devproto_frame_parse_byte p b).2 = 1) :
    (devproto_frame_parse_byte p b).1.state = FrameState.COMPLETE := by
  rcases p with ⟨st, buf, el, pr, mt, sz, cr, fp, ce, se⟩
  cases st <;>
    simp only [devproto_frame_parse_byte, devproto_frame_parser_reset] at h ⊢ <;>
    (try split_ifs at h ⊢) <;> (try dsimp only at h ⊢) <;> simp_all

theorem foldl_step_zeros (data : List Nat) (m : Nat) :
    ∀ (q : Parser) (msgs : List Message),
    msgs.length < m → (feedTrace q data).2 = List.replicate data.length 0 →
    data.foldl (frameParseStep m) (q, msgs) = ((feedTrace q data).1, msgs) := by
  induction data with
  | nil => intro q msgs _ _; simp [feedTrace]
  | cons x rest ih =>
      intro q msgs hm htr
      simp only [feedTrace, List.length_cons, List.replicate_succ,
        List.cons.injEq] at htr
      have hstep : frameParseStep m (q, msgs) x =
          ((devproto_frame_parse_byte q x).1, msgs) := by
        unfold frameParseStep
        rw [if_pos hm, if_neg (by rw [htr.1]; simp)]
      simp only [List.foldl_cons, hstep, feedTrace]
      exact ih _ _ hm htr.2

theorem foldl_step_complete (data : List Nat) (m : Nat) :
    ∀ (q : Parser) (msgs : List Message),
    msgs.length < m →
    (feedTrace q data).2 = List.replicate (data.length - 1) 0 ++ [1] →
    data.foldl (frameParseStep m) (q, msgs) =
      (devproto_frame_parser_reset (feedTrace q data).1,
        msgs ++ [⟨(feedTrace q data).1.msg_type, (feedTrace q data).1.sequence,
          ((feedTrace q data).1.buffer.drop 6).take
            (feedTrace q data).1.expected_length⟩]) := by
  induction data with
  | nil =>
      intro q msgs _ htr
      simp [feedTrace] at htr
  | cons x rest ih =>
      intro q msgs hm htr
      by_cases hr : rest = []
      · subst hr
        simp only [feedTrace, List.length_cons, List.length_nil, Nat.add_sub_cancel,
          List.replicate_zero, List.nil_append, List.cons.injEq, and_true] at htr
        have hcomp := parse_byte_one_complete q x htr
        have hget : devproto_frame_get_message (devproto_frame_parse_byte q x).1 =
            some ⟨(devproto_frame_parse_byte q x).1.msg_type,
              (devproto_frame_parse_byte q x).1.sequence,
              (((devproto_frame_parse_byte q x).1.buffer.drop 6).take
                (devproto_frame_parse_byte q x).1.expected_length)⟩ := by
          unfold devproto_frame_get_message
          rw [if_pos hcomp]
        simp only [List.foldl_cons, List.foldl_nil]
        unfold frameParseStep
        rw [if_pos hm, if_pos htr, hget]
        simp [feedTrace]
      · have hpos : 0 < rest.length := List.length_pos.mpr hr
        obtain ⟨k, hk⟩ : ∃ k, rest.length = k + 1 := ⟨rest.length - 1, by omega⟩
        simp only [feedTrace, List.length_cons, Nat.add_sub_cancel, hk,
          List.replicate_succ, List.cons_append, List.cons.injEq] at htr
        have hstep : frameParseStep m (q, msgs) x =
            ((devproto_frame_parse_byte q x).1, msgs) := by
          unfold frameParseStep
          rw [if_pos hm, if_neg (by rw [htr.1]; simp)]
        have hih := ih (devproto_frame_parse_byte q x).1 msgs hm
          (by rw [hk]; simpa using htr.2)
        simp only [List.foldl_cons, hstep, feedTrace]
        exact hih

theorem frame_bytes_length (ty sq : Nat) (pl : List Nat) :
    (frame_bytes ty sq pl).length = 8 + pl.length := by
  simp only [frame_bytes, List.length_append, List.length_cons, List.length_nil]
  omega

theorem foldl_step_frame (m ty sq : Nat) (pl : List Nat) (q : Parser)
    (msgs : List Message)
    (hq : q.state = FrameState.IDLE ∨
      (q.state = FrameState.HEADER_LO ∧ q.buffer = [0xAA]))
    (hm : msgs.length < m) (hty : ty < 256) (hsq : sq < 256)
    (hpl : ∀ x ∈ pl, x < 256) (hlen : pl.length ≤ 4096) :
    (frame_bytes ty sq pl).foldl (frameParseStep m) (q, msgs) =
      (devproto_frame_parser_reset
        { q with frames_parsed := (q.frames_parsed + 1) % 4294967296 },
        msgs ++ [⟨ty, sq, pl⟩]) := by
  have hff := feed_frame q ty sq pl hq hty hsq hpl hlen
  have htr2 : (feedTrace q (frame_bytes ty sq pl)).2 =
      List.replicate ((frame_bytes ty sq pl).length - 1) 0 ++ [1] := by
    rw [hff, frame_bytes_length]
    have h81 : 8 + pl.length - 1 = 7 + pl.length := by omega
    rw [h81]
  have h := foldl_step_complete (frame_bytes ty sq pl) m q msgs hm htr2
  rw [hff] at h
  rw [h]
  dsimp only
  have hdrop : (([0xAA, 0x55, (pl.length >>> 8) &&& 0xFF, pl.length &&& 0xFF,
      ty, sq] ++ pl).drop 6) = pl := by simp
  rw [hdrop, List.take_of_length_le (Nat.le_refl _)]
  rfl

theorem foldl_step_garbage (g : List Nat) (m : Nat) :
    ∀ (q : Parser) (msgs : List Message),
    q.state = FrameState.IDLE → (∀ x ∈ g, x % 256 ≠ 0xAA) →
    g.foldl (frameParseStep m) (q, msgs) = (q, msgs) := by
  induction g with
  | nil => intro q msgs _ _; rfl
  | cons x rest ih =>
      intro q msgs hq hg
      have hx : x % 256 ≠ 0xAA := hg x (List.mem_cons_self x rest)
      have hpb : devproto_frame_parse_byte q x = (q, 0) := by
        unfold devproto_frame_parse_byte
        simp only [hq]
        rw [if_neg hx]
      have hstep : frameParseStep m (q, msgs) x = (q, msgs) := by
        unfold frameParseStep
        by_cases hm : msgs.length < m
        · rw [if_pos hm, hpb]
          simp
        · rw [if_neg hm]
      simp only [List.foldl_cons, hstep]
      exact ih q msgs hq fun y hy => hg y (List.mem_cons_of_mem x hy)

theorem foldl_step_frames (frames : List (Nat × Nat × List Nat)) (m : Nat) :
    ∀ (q : Parser) (msgs : List Message),
    devproto_frame_parser_reset q = q →
    (∀ f ∈ frames, f.1 < 256 ∧ f.2.1 < 256 ∧ (∀ x ∈ f.2.2, x < 256) ∧
      f.2.2.length ≤ 4096) →
    msgs.length + frames.length ≤ m →
    q.frames_parsed + frames.length < 4294967296 →
    ((frames.map fun f => frame_bytes f.1 f.2.1 f.2.2).flatten).foldl
        (frameParseStep m) (q, msgs) =
      ({ q with frames_parsed := q.frames_parsed + frames.length },
        msgs ++ frames.map fun f => (⟨f.1, f.2.1, f.2.2⟩ : Message)) := by
  induction frames with
  | nil => intro q msgs _ _ _ _; simp
  | cons f rest ih =>
      intro q msgs hclean hwf hm hnw
      obtain ⟨hty, hsq, hpl, hlen⟩ := hwf f (List.mem_cons_self f rest)
      have hq : q.state = FrameState.IDLE := by rw [← hclean]; rfl
      simp only [List.map_cons, List.flatten_cons, List.length_cons] at hm hnw ⊢
      rw [List.foldl_append]
      rw [foldl_step_frame m f.1 f.2.1 f.2.2 q msgs (Or.inl hq) (by omega)
        hty hsq hpl hlen]
      rw [Nat.mod_eq_of_lt (show q.frames_parsed + 1 < 4294967296 by omega)]
      rw [ih _ _ rfl (fun f2 h2 => hwf f2 (List.mem_cons_of_mem f h2))
        (by simp; omega)
        (by show q.frames_parsed + 1 + rest.length < 4294967296; omega)]
      have hres : devproto_frame_parser_reset
          { q with frames_parsed := q.frames_parsed + 1 } =
          { q with frames_parsed := q.frames_parsed + 1 } := by
        have h1 : devproto_frame_parser_reset
            { q with frames_parsed := q.frames_parsed + 1 } =
            { devproto_frame_parser_reset q with
                frames_parsed := q.frames_parsed + 1 } := rfl
        rw [h1, hclean]
      rw [hres]
      simp only [Prod.mk.injEq]
      constructor
      · rw [show q.frames_parsed + 1 + rest.length =
          q.frames_parsed + (rest.length + 1) from by omega]
      · simp

theorem foldl_step_sync_keep (k m : Nat) :
    ∀ (q : Parser) (msgs : List Message),
    q.state = FrameState.HEADER_LO → q.buffer = [0xAA] →
    (List.replicate k 0xAA).foldl (frameParseStep m) (q, msgs) = (q, msgs) := by
  induction k with
  | zero => intro q msgs _ _; rfl
  | succ n ih =>
      intro q msgs hq hbuf
      have hpb : devproto_frame_parse_byte q 0xAA =
          ({ q with buffer := [0xAA], state := FrameState.HEADER_LO }, 0) := by
        simp only [devproto_frame_parse_byte, hq]
        norm_num
      have hpb2 : devproto_frame_parse_byte q 0xAA = (q, 0) := by
        rw [hpb, ← hq, ← hbuf]
      have hstep : frameParseStep m (q, msgs) 0xAA = (q, msgs) := by
        unfold frameParseStep
        by_cases hm2 : msgs.length < m
        · rw [if_pos hm2, hpb2]
          simp
        · rw [if_neg hm2]
      rw [List.replicate_succ, List.foldl_cons, hstep]
      exact ih q msgs hq hbuf

theorem foldl_step_sync_enter (k m : Nat) (q : Parser) (msgs : List Message)
    (hq : q.state = FrameState.IDLE) (hm : msgs.length < m) :
    (List.replicate (k + 1) 0xAA).foldl (frameParseStep m) (q, msgs) =
      ({ q with buffer := [0xAA], state := FrameState.HEADER_LO }, msgs) := by
  have hpb : devproto_frame_parse_byte q 0xAA =
      ({ q with buffer := [0xAA], state := FrameState.HEADER_LO }, 0) := by
    simp [devproto_frame_parse_byte, hq]
  have hstep : frameParseStep m (q, msgs) 0xAA =
      ({ q with buffer := [0xAA], state := FrameState.HEADER_LO }, msgs) := by
    unfold frameParseStep
    rw [if_pos hm, hpb]
    simp
  rw [List.replicate_succ, List.foldl_cons, hstep]
  exact foldl_step_sync_keep k m _ msgs rfl rfl

theorem foldl_step_frame_from_sync (m ty sq : Nat) (pl : List Nat)
    (hm : 0 < m) (hty : ty < 256) (hsq : sq < 256)
    (hpl : ∀ x ∈ pl, x < 256) (hlen : pl.length ≤ 4096) :
    (frame_bytes ty sq pl).foldl (frameParseStep m)
        ({ devproto_frame_parser_init with
            buffer := [0xAA], state := FrameState.HEADER_LO }, []) =
      ({ devproto_frame_parser_init with frames_parsed := 1 },
        [⟨ty, sq, pl⟩]) := by
  rw [foldl_step_frame m ty sq pl _ [] (Or.inr ⟨rfl, rfl⟩) (by simpa using hm)
    hty hsq hpl hlen]
  rfl

/-- C2 (amended): garbage tolerance. For a byte string made of a garbage
prefix containing no sync byte `0xAA`, then `k` false-sync `0xAA` bytes
(`k = 0` allowed, and if `k > 0` at least one frame must follow), then
the concatenation of `K` built frames, then a suffix containing no
`0xAA`, a fresh parser bulk-parses exactly the `K` messages in order
with their original kind, sequence and payload — and `sync_errors`
stays `0`: bytes discarded during the `IDLE` sync search are not
counted, and a duplicated `0xAA` in `HEADER_LO` merely restarts the
sync match without counting. In particular the scenario-(c) stream
`12 34 AA AA 55 00 00 01 05 crc AA 55 00 00 81 05 crc` (garbage
`12 34`, one false-sync `AA`, then two frames) yields the two messages
`(0x01, 5)` and `(0x81, 5)` and leaves `sync_errors = 0`. -/
theorem garbage_tolerance_resync :
    (∀ (g sfx : List Nat) (k : Nat) (frames : List (Nat × Nat × List Nat)) (m : Nat),
      (∀ x ∈ g, x % 256 ≠ 0xAA) → (∀ x ∈ sfx, x % 256 ≠ 0xAA) →
      (k = 0 ∨ frames ≠ []) →
      (∀ f ∈ frames, f.1 < 256 ∧ f.2.1 < 256 ∧ (∀ x ∈ f.2.2, x < 256) ∧
        f.2.2.length ≤ 4096) →
      frames.length ≤ m → 0 < m → m ≤ 2147483647 →
      devproto_frame_parse devproto_frame_parser_init
          (g ++ List.replicate k 0xAA ++
            (frames.map fun f => frame_bytes f.1 f.2.1 f.2.2).flatten ++ sfx) m =
        some ({ devproto_frame_parser_init with frames_parsed := frames.length },
          frames.map fun f => (⟨f.1, f.2.1, f.2.2⟩ : Message))) ∧
    devproto_frame_parse devproto_frame_parser_init
        ([0x12, 0x34, 0xAA] ++ frame_bytes 0x01 5 [] ++ frame_bytes 0x81 5 []) 10 =
      some (⟨FrameState.IDLE, [], 0, 0, 0, 0, 0, 2, 0, 0⟩,
        [⟨0x01, 5, []⟩, ⟨0x81, 5, []⟩]) := by
  constructor
  · intro g sfx k frames m hg hsfx hkf hwf hkm hm hm32
    unfold devproto_frame_parse
    rw [if_neg (by omega), Nat.min_eq_left hm32]
    simp only [List.foldl_append]
    rw [foldl_step_garbage g m devproto_frame_parser_init [] rfl hg]
    rcases k with _ | k2
    · simp only [List.replicate_zero, List.foldl_nil]
      rw [foldl_step_frames frames m devproto_frame_parser_init [] rfl hwf
        (by simpa using hkm)
        (by show 0 + frames.length < 4294967296; omega)]
      rw [foldl_step_garbage sfx m _ _ rfl hsfx]
      simp [devproto_frame_parser_init]
    · rcases hkf with h0 | hne
      · exact absurd h0 (by omega)
      rcases frames with _ | ⟨f, rest⟩
      · exact absurd rfl hne
      obtain ⟨hty, hsq, hpl, hlen⟩ := hwf f (List.mem_cons_self f rest)
      rw [foldl_step_sync_enter k2 m devproto_frame_parser_init []
        rfl (by simpa using hm)]
      simp only [List.map_cons, List.flatten_cons, List.length_cons] at hkm ⊢
      rw [List.foldl_append]
      rw [foldl_step_frame_from_sync m f.1 f.2.1 f.2.2 hm hty hsq hpl hlen]
      rw [foldl_step_frames rest m
        ({ devproto_frame_parser_init with frames_parsed := 1 })
        [⟨f.1, f.2.1, f.2.2⟩] rfl
        (fun f2 h2 => hwf f2 (List.mem_cons_of_mem f h2))
        (by simp; omega)
        (by show 1 + rest.length < 4294967296; omega)]
      rw [foldl_step_garbage sfx m _ _ rfl hsfx]
      simp only [Option.some.injEq, Prod.mk.injEq]
      constructor
      · dsimp only
        rw [show 1 + rest.length = rest.length + 1 from by omega]
      · simp
  · decide

/-- Counterexample to C2 as stated: the scenario-(c) stream
`12 34 AA AA 55 …` leaves `sync_errors = 0`, not `≥ 2` (the discarded
prefix bytes `12 34` are dropped silently in `IDLE`, and the duplicated
`0xAA` restarts the sync match without counting); and a garbage prefix
is not harmless in general: prefix `AA 55` swallows the following
frame's sync pair as a bogus length field, so the stream
`AA 55 ++ frame` contains one valid frame but parses zero messages. -/
theorem garbage_tolerance_counterexample :
    ((devproto_frame_parse devproto_frame_parser_init
        ([0x12, 0x34, 0xAA] ++ frame_bytes 0x01 5 [] ++ frame_bytes 0x81 5 []) 10).map
          fun r => r.1.sync_errors) = some 0 ∧
    ¬ (2 : Nat) ≤ 0 ∧
    ((devproto_frame_parse devproto_frame_parser_init
        ([0xAA, 0x55] ++ frame_bytes 0x01 5 []) 10).map
          fun r => r.2.length) = some 0 ∧
    ¬ (1 : Nat) = 0 := by
  refine ⟨by decide, by decide, by decide, by decide⟩

/-- Witness for C2 (amended): the scenario-(c) stream is the general
statement at garbage prefix `12 34`, one false-sync byte, frames
`(0x01, 5, [])` and `(0x81, 5, [])` and an empty suffix. -/
theorem garbage_tolerance_resync_witness :
    devproto_frame_parse devproto_frame_parser_init
        ([0x12, 0x34] ++ List.replicate 1 0xAA ++
          ([(0x01, 5, ([] : List Nat)), (0x81, 5, ([] : List Nat))].map
            fun f => frame_bytes f.1 f.2.1 f.2.2).flatten ++ []) 10 =
      some ({ devproto_frame_parser_init with frames_parsed := 2 },
        [⟨0x01, 5, []⟩, ⟨0x81, 5, []⟩]) := by
  have h := garbage_tolerance_resync.1 [0x12, 0x34] [] 1
    [(0x01, 5, ([] : List Nat)), (0x81, 5, ([] : List Nat))] 10
    (by decide) (by decide) (Or.inr (by decide)) (by decide) (by decide)
    (by decide) (by decide)
  simpa using h

theorem getD_cons5 (x0 x1 x2 x3 x4 : Nat) (ls : List Nat) (k : Nat) :
    (x0 :: x1 :: x2 :: x3 :: x4 :: ls).getD (k + 5) 0 = ls.getD k 0 := by
  rw [show k + 5 = k + 1 + 1 + 1 + 1 + 1 from by omega]
  simp [List.getD_cons_succ]

theorem metricsSpecParse_cons5 (a b c d e : Nat) (rest : List Nat) :
    metricsSpecParse (a :: b :: c :: d :: e :: rest) =
      ⟨a, devproto_float_from_be b c d e⟩ :: metricsSpecParse rest := by
  unfold metricsSpecParse
  have hlen : (a :: b :: c :: d :: e :: rest).length / 5 = rest.length / 5 + 1 := by
    simp only [List.length_cons]
    omega
  rw [hlen, List.range_succ_eq_map, List.map_cons, List.map_map]
  congr 1

theorem metrics_parse_go_length : ∀ (max : Nat) (p : List Nat),
    (metrics_parse_go p max).length = min (p.length / 5) max := by
  intro max
  induction max with
  | zero =>
      intro p
      rcases p with _ | ⟨a, _ | ⟨b, _ | ⟨c, _ | ⟨d, _ | ⟨e, rest⟩⟩⟩⟩⟩ <;>
        simp [metrics_parse_go]
  | succ m ih =>
      intro p
      rcases p with _ | ⟨a, _ | ⟨b, _ | ⟨c, _ | ⟨d, _ | ⟨e, rest⟩⟩⟩⟩⟩ <;>
        simp [metrics_parse_go, ih] <;> omega

theorem metrics_parse_go_spec : ∀ (max : Nat) (p : List Nat),
    p.length / 5 ≤ max → metrics_parse_go p max = metricsSpecParse p := by
  intro max
  induction max with
  | zero =>
      intro p hp
      rcases p with _ | ⟨a, _ | ⟨b, _ | ⟨c, _ | ⟨d, _ | ⟨e, rest⟩⟩⟩⟩⟩
      · simp [metrics_parse_go, metricsSpecParse]
      · simp [metrics_parse_go, metricsSpecParse]
      · simp [metrics_parse_go, metricsSpecParse]
      · simp [metrics_parse_go, metricsSpecParse]
      · simp [metrics_parse_go, metricsSpecParse]
      · exfalso
        simp only [List.length_cons] at hp
        omega
  | succ m ih =>
      intro p hp
      rcases p with _ | ⟨a, _ | ⟨b, _ | ⟨c, _ | ⟨d, _ | ⟨e, rest⟩⟩⟩⟩⟩
      · simp [metrics_parse_go, metricsSpecParse]
      · simp [metrics_parse_go, metricsSpecParse]
      · simp [metrics_parse_go, metricsSpecParse]
      · simp [metrics_parse_go, metricsSpecParse]
      · simp [metrics_parse_go, metricsSpecParse]
      · rw [show metrics_parse_go (a :: b :: c :: d :: e :: rest) (m + 1) =
            ⟨a, devproto_float_from_be b c d e⟩ :: metrics_parse_go rest m from rfl]
        rw [ih rest (by simp only [List.length_cons] at hp; omega)]
        rw [metricsSpecParse_cons5]

/-- C7 (amended): metric record parsing. For a payload of length `L` and
any `max_metrics ≥ max(1, ⌊L/5⌋)` with `⌊L/5⌋ ≤ INT32_MAX` (the record
limit is clamped to `INT32_MAX` before the scan), `devproto_metrics_parse`
returns exactly `⌊L/5⌋` records, record `i` holding the type byte at
offset `5i` and the value assembled big-endian from the four following
bytes; a trailing leftover of 1–4 bytes is ignored and `L = 0` yields
the empty result. -/
theorem metrics_parse_records (payload : List Nat) (max_metrics : Nat)
    (h1 : 1 ≤ max_metrics) (h2 : payload.length / 5 ≤ max_metrics)
    (h3 : payload.length / 5 ≤ 2147483647) :
    devproto_metrics_parse payload max_metrics = some (metricsSpecParse payload) ∧
    (metricsSpecParse payload).length = payload.length / 5 := by
  constructor
  · unfold devproto_metrics_parse
    rw [if_neg (by omega)]
    rw [metrics_parse_go_spec (min max_metrics 2147483647) payload (by omega)]
  · unfold metricsSpecParse
    simp

/-- Counterexample to C7 as stated: with a payload of `5 · 2^31` zero
bytes and `max_metrics = 2^31 ≥ ⌊L/5⌋`, the `INT32_MAX` clamp caps the
result at `2147483647` records instead of the stated `⌊L/5⌋ = 2^31`. -/
theorem metrics_parse_counterexample :
    ((devproto_metrics_parse (List.replicate (5 * 2147483648) 0) 2147483648).map
      List.length) = some 2147483647 ∧
    (List.replicate (5 * 2147483648) (0 : Nat)).length / 5 = 2147483648 ∧
    (2147483647 : Nat) ≠ 2147483648 := by
  refine ⟨?_, ?_, by norm_num⟩
  · unfold devproto_metrics_parse
    rw [if_neg (by norm_num)]
    show some (metrics_parse_go (List.replicate (5 * 2147483648) 0)
      (min 2147483648 2147483647)).length = some 2147483647
    rw [metrics_parse_go_length, List.length_replicate]
    norm_num
  · rw [List.length_replicate]

/-- Witness for C7: a six-byte payload parses into exactly one record
`(1, 0x02030405)`, the trailing sixth byte ignored. -/
theorem metrics_parse_records_witness :
    devproto_metrics_parse [1, 2, 3, 4, 5, 6] 1 = some [⟨1, 33752069⟩] := by
  have h := metrics_parse_records [1, 2, 3, 4, 5, 6] 1 (by norm_num)
    (by norm_num) (by norm_num)
  rw [h.1]
  decide

/-- C10: `devproto_create_metrics_request` (on a non-null `types` with
positive count) and `devproto_create_command` narrow the caller's
`size_t` count to the 16-bit `payload_len` field modulo `2^16`, with the
payload view pointing at the caller's bytes; in particular
`num_types = 65536` yields a metrics request with `payload_len = 0` and
the caller's buffer as payload, not the single-byte `[0xFF]` payload of
the zero-types case (which keeps `payload_len = 1`). -/
theorem create_helpers_truncate :
    (∀ (sq : Nat) (types : List Nat) (num_types : Nat), 0 < num_types →
      devproto_create_metrics_request sq (some types) num_types =
        ⟨0x02, sq, num_types % 65536, some types⟩) ∧
    (∀ (sq ct : Nat) (params : Option (List Nat)) (params_len : Nat),
      devproto_create_command sq ct params params_len =
        ⟨0x03, sq, params_len % 65536, params⟩) ∧
    (devproto_create_metrics_request 0 (some [1]) 65536).payload_len = 0 ∧
    (devproto_create_metrics_request 0 (some [1]) 65536).payload ≠ some [0xFF] ∧
    devproto_create_metrics_request 0 (some []) 0 = ⟨0x02, 0, 1, some [0xFF]⟩ := by
  refine ⟨?_, fun _ _ _ _ => rfl, by decide, by decide, rfl⟩
  intro sq types n hn
  simp only [devproto_create_metrics_request]
  rw [if_pos hn]

/-- Witness for C10: a one-element type list with count 1 yields
`payload_len = 1` and the caller's bytes as payload. -/
theorem create_helpers_truncate_witness :
    devproto_create_metrics_request 9 (some [7]) 1 = ⟨0x02, 9, 1, some [7]⟩ := by
  have h := create_helpers_truncate.1 9 [7] 1 (by norm_num)
  simpa using h

end Devproto
